import Mathlib

/-!
# Verification of the chat WebSocket server (`src/server.py`)

A shallow embedding of the connection-registry / broadcast / history engine
of `server.py`.  The per-connection handler `handle_connection` is modelled
as a step function over the global server state (`connected_clients`,
`chat_history`); inbound payloads are modelled as parsed JSON values
(`json.loads` either fails, `Option.none`, or yields a `Json` value), and
the Python dynamic operations the handler uses on them (`'text' in data`,
`data["text"]`) are embedded with their Python semantics on every JSON
shape, including the `TypeError` cases that the handler's broad
`except Exception` catches.
-/

/-- Parsed JSON values, the possible results of `json.loads`. -/
inductive Json where
  | null : Json
  | bool (b : Bool) : Json
  | num (n : Int) : Json
  | str (s : String) : Json
  | arr (xs : List Json) : Json
  | obj (kvs : List (String × Json)) : Json

/-- Python exceptions that the message-processing code can raise and that
`except Exception` at line 122 of `server.py` catches. -/
inductive PyError where
  | typeError : PyError
  | keyError : PyError
deriving DecidableEq

/-- Substring test on strings (semantics of Python `key in s` for `str`). -/
def hasSubstr (key s : String) : Bool :=
  (List.range (s.data.length + 1)).any (fun i => key.data.isPrefixOf (s.data.drop i))

/-- Python `key in data` on a parsed JSON value: key membership for a dict,
substring containment for a string, element membership for a list, and
`TypeError` (argument not iterable) for numbers, booleans and `None`. -/
def pyIn (key : String) (data : Json) : Except PyError Bool :=
  match data with
  | .obj kvs => .ok (kvs.any (fun kv => kv.1 = key))
  | .str s => .ok (hasSubstr key s)
  | .arr xs => .ok (xs.any (fun x => match x with | .str s => s = key | _ => false))
  | _ => .error .typeError

/-- Python `data[key]` with a string key: dict lookup (raising `KeyError`
when absent), `TypeError` for strings and lists (indices must be integers)
and for non-subscriptable values. -/
def pyGetItem (data : Json) (key : String) : Except PyError Json :=
  match data with
  | .obj kvs =>
      match kvs.find? (fun kv => kv.1 = key) with
      | some kv => .ok kv.2
      | none => .error .keyError
  | _ => .error .typeError

/-- The `message_obj` record built at lines 84–88 of `server.py`:
`text` and `sender` straight from the payload (no type check in the code,
so they are arbitrary JSON values) plus the server-assigned timestamp. -/
structure ChatMessage where
  text : Json
  sender : Json
  timestamp : String

/-- Client handles: opaque comparable identities of connections. -/
abbrev ClientId := Nat

/-- The two server→client payload kinds the handler sends. -/
inductive Payload where
  | history (messages : List ChatMessage) : Payload
  | message (m : ChatMessage) : Payload

/-- One outbound delivery attempt: recipient, payload, and whether the
transport send succeeded (`false` models a `DeliveryError`). -/
abbrev Send := ClientId × Payload × Bool

/-- The global mutable state of `server.py`: `connected_clients` (a set,
modelled as a duplicate-free list) and `chat_history`. -/
structure ServerState where
  connected_clients : List ClientId
  chat_history : List ChatMessage

/-- Process-startup state: both globals initialized empty. -/
def initState : ServerState := ⟨[], []⟩

/-- Python `set.add` (line 58): no effect when already a member. -/
def setAdd (s : List ClientId) (c : ClientId) : List ClientId :=
  if s.contains c then s else s ++ [c]

/-- Python `set.remove` (line 128): removes the member, raising `KeyError`
when it is absent. -/
def setRemove (s : List ClientId) (c : ClientId) : Except PyError (List ClientId) :=
  if s.contains c then .ok (s.filter (fun x => ¬ x = c)) else .error .keyError

/-- Body of the `try` at lines 79–117 for one parsed payload `data`:
field-presence check with Python `in` semantics, `message_obj`
construction, history append and trim, and the broadcast fan-out.
`now` is the server clock at the processing instant (line 83); `ok c`
tells whether the transport send to client `c` succeeds.  Errors are the
uncaught Python exceptions escaping this block. -/
def processData (st : ServerState) (data : Json) (now : String)
    (ok : ClientId → Bool) : Except PyError (ServerState × List Send) :=
  match pyIn "text" data with
  | .error e => .error e
  | .ok htext =>
    if htext then
      match pyIn "sender" data with
      | .error e => .error e
      | .ok hsender =>
        if hsender then
          match pyGetItem data "text", pyGetItem data "sender" with
          | .ok text, .ok sender =>
            let message_obj : ChatMessage := ⟨text, sender, now⟩
            let h1 := st.chat_history ++ [message_obj]
            let h2 := if h1.length > 100 then h1.tail else h1
            let sends :=
              st.connected_clients.map (fun c => (c, Payload.message message_obj, ok c))
            .ok ({ st with chat_history := h2 }, sends)
          | .error e, _ => .error e
          | .ok _, .error e => .error e
        else .ok (st, [])
    else .ok (st, [])

/-- One iteration of the `async for` loop (lines 76–123) on one inbound
raw message: `parsed` is the result of `json.loads` (`none` on
`JSONDecodeError`).  Both `except` clauses (lines 120–123) catch and
discard, so a failing payload leaves the state unchanged and sends
nothing. -/
def processMessage (st : ServerState) (parsed : Option Json) (now : String)
    (ok : ClientId → Bool) : ServerState × List Send :=
  match parsed with
  | none => (st, [])
  | some data =>
      match processData st data now ok with
      | .ok r => r
      | .error _ => (st, [])

/-- Externally-visible events driving the per-connection tasks. -/
inductive Event where
  | join (c : ClientId) : Event
  | recv (c : ClientId) (parsed : Option Json) (now : String) (ok : ClientId → Bool) : Event
  | disconnect (c : ClientId) : Event

/-- One scheduler step of the server.  `join` is lines 57–70: register the
handle, then send the history snapshot to the joining client alone when
non-empty.  `recv` is one loop iteration.  `disconnect` is the `finally`
at lines 126–129: `set.remove`; a `KeyError` there kills only that task
and leaves the registry as it was. -/
def step (st : ServerState) (e : Event) : ServerState × List Send :=
  match e with
  | .join c =>
      let st' := { st with connected_clients := setAdd st.connected_clients c }
      if st.chat_history.isEmpty then (st', [])
      else (st', [(c, Payload.history st.chat_history, true)])
  | .recv _ parsed now ok => processMessage st parsed now ok
  | .disconnect c =>
      match setRemove st.connected_clients c with
      | .ok s' => ({ st with connected_clients := s' }, [])
      | .error _ => (st, [])

/-- Run a sequence of events, concatenating the emitted sends in order. -/
def run (st : ServerState) : List Event → ServerState × List Send
  | [] => (st, [])
  | e :: es =>
      let r := step st e
      let r' := run r.1 es
      (r'.1, r.2 ++ r'.2)

/-! ## Derived notions used in the statements -/

/-- The payload has the given key (line 81's check, for a JSON object). -/
def hasKey (kvs : List (String × Json)) (key : String) : Bool :=
  kvs.any (fun kv => kv.1 = key)

/-- Value of a key in a JSON object (what `data[key]` returns when it
succeeds); `.null` as an irrelevant default for absent keys. -/
def valOf (kvs : List (String × Json)) (key : String) : Json :=
  ((kvs.find? (fun kv => kv.1 = key)).map Prod.snd).getD .null

/-- The payloads the handler accepts: a parsed JSON object with both keys
present (the code checks presence only, not the values' types). -/
def acceptedPayload : Option Json → Bool
  | some (.obj kvs) => hasKey kvs "text" && hasKey kvs "sender"
  | _ => false

/-- The `ChatMessage` the handler builds from an accepted object payload. -/
def mkMsg (kvs : List (String × Json)) (now : String) : ChatMessage :=
  ⟨valOf kvs "text", valOf kvs "sender", now⟩

/-- History append followed by the size cap of lines 92–99. -/
def trimAppend (h : List ChatMessage) (m : ChatMessage) : List ChatMessage :=
  let h1 := h ++ [m]
  if h1.length > 100 then h1.tail else h1

/-! ## Basic lemmas about one processing step -/

lemma pyGetItem_of_hasKey {kvs : List (String × Json)} {key : String}
    (h : hasKey kvs key = true) :
    pyGetItem (.obj kvs) key = .ok (valOf kvs key) := by
  have : (kvs.find? (fun kv => kv.1 = key)).isSome := by
    rw [List.find?_isSome]
    rcases List.any_eq_true.mp h with ⟨kv, hm, hk⟩
    exact ⟨kv, hm, hk⟩
  rcases Option.isSome_iff_exists.mp this with ⟨kv, hfind⟩
  simp [pyGetItem, hfind, valOf]

/-- An accepted payload: the state mutation and fan-out of lines 82–117. -/
lemma processMessage_accept {kvs : List (String × Json)} (st : ServerState)
    (now : String) (ok : ClientId → Bool)
    (htext : hasKey kvs "text" = true) (hsender : hasKey kvs "sender" = true) :
    processMessage st (some (.obj kvs)) now ok =
      ({ st with chat_history := trimAppend st.chat_history (mkMsg kvs now) },
       st.connected_clients.map (fun c => (c, Payload.message (mkMsg kvs now), ok c))) := by
  have ht := pyGetItem_of_hasKey htext
  have hs := pyGetItem_of_hasKey hsender
  unfold hasKey at htext hsender
  simp only [processMessage, processData, pyIn, htext, hsender, ht, hs, if_true]
  simp [mkMsg, trimAppend]

/-- A rejected payload (parse failure, missing field, or a non-object for
which the `in`-check or subscription raises a caught exception) leaves the
state unchanged and sends nothing. -/
lemma processMessage_reject (st : ServerState) (parsed : Option Json)
    (now : String) (ok : ClientId → Bool)
    (h : acceptedPayload parsed = false) :
    processMessage st parsed now ok = (st, []) := by
  match parsed with
  | none => rfl
  | some data =>
    match data with
    | .null => rfl
    | .bool b => rfl
    | .num n => rfl
    | .str s =>
      simp only [processMessage, processData, pyIn, pyGetItem]
      cases hasSubstr "text" s <;> cases hasSubstr "sender" s <;> simp
    | .arr xs =>
      simp only [processMessage, processData, pyIn, pyGetItem]
      cases hxt : xs.any (fun x => match x with | .str s => s = "text" | _ => false) <;>
        cases hxs : xs.any (fun x => match x with | .str s => s = "sender" | _ => false) <;>
        simp
    | .obj kvs =>
      simp only [acceptedPayload] at h
      simp only [processMessage, processData, pyIn]
      cases htx : hasKey kvs "text" with
      | false =>
        unfold hasKey at htx
        simp [htx]
      | true =>
        cases hsx : hasKey kvs "sender" with
        | false =>
          unfold hasKey at htx hsx
          simp [htx, hsx]
        | true =>
          rw [htx, hsx] at h
          simp at h

/-! ## The history buffer as a fold -/

/-- Folding the append-and-trim of lines 92–99 keeps exactly the most
recent 100 messages: starting from a buffer within the cap, the result is
the concatenation with the oldest entries dropped. -/
lemma foldl_trimAppend_eq (ms : List ChatMessage) :
    ∀ h : List ChatMessage, h.length ≤ 100 →
      ms.foldl trimAppend h = (h ++ ms).drop (h.length + ms.length - 100) := by
  induction ms with
  | nil =>
    intro h hh
    simp only [List.foldl_nil, List.append_nil, List.length_nil, Nat.add_zero]
    rw [Nat.sub_eq_zero_of_le hh, List.drop_zero]
  | cons m ms ih =>
    intro h hh
    simp only [List.foldl_cons]
    by_cases hl : h.length = 100
    · rcases h with _ | ⟨a, t⟩
      · simp at hl
      · have hlt : t.length = 99 := by
          simp only [List.length_cons] at hl
          omega
        have ht : trimAppend (a :: t) m = t ++ [m] := by
          simp only [trimAppend]
          rw [if_pos (by simp; omega)]
          rfl
        rw [ht, ih (t ++ [m]) (by simp [hlt])]
        have e1 : (t ++ [m]).length + ms.length - 100 = ms.length := by simp [hlt]
        have e2 : (a :: t).length + (m :: ms).length - 100 = ms.length + 1 := by
          simp [hlt]
        rw [e1, e2, List.cons_append, List.drop_succ_cons, List.append_assoc,
          List.singleton_append]
    · have hlt : h.length < 100 := lt_of_le_of_ne hh hl
      have ht : trimAppend h m = h ++ [m] := by
        simp only [trimAppend]
        rw [if_neg (by simp; omega)]
      rw [ht, ih (h ++ [m]) (by simp; omega)]
      have e1 : (h ++ [m]).length + ms.length - 100 = h.length + (m :: ms).length - 100 := by
        simp
        omega
      rw [e1, List.append_assoc, List.singleton_append]

/-- Length form of the cap: the fold holds `min (initial + appended) 100`
entries. -/
lemma foldl_trimAppend_length (ms : List ChatMessage) (h : List ChatMessage)
    (hh : h.length ≤ 100) :
    (ms.foldl trimAppend h).length = min (h.length + ms.length) 100 := by
  rw [foldl_trimAppend_eq ms h hh, List.length_drop]
  simp
  omega

/-! ## Runs of valid inbound messages -/

/-- The events for a sequence of valid inbound messages: each input is the
sending client, the JSON object body, and the server clock at its
processing instant. -/
def validEvents (ok : ClientId → Bool)
    (inputs : List (ClientId × List (String × Json) × String)) : List Event :=
  inputs.map (fun p => Event.recv p.1 (some (.obj p.2.1)) p.2.2 ok)

/-- The `ChatMessage`s the handler builds from those inputs. -/
def expectedMsgs (inputs : List (ClientId × List (String × Json) × String)) :
    List ChatMessage :=
  inputs.map (fun p => mkMsg p.2.1 p.2.2)

/-- Processing valid messages folds the history through `trimAppend` and
leaves the registry untouched. -/
lemma run_validEvents (ok : ClientId → Bool)
    (inputs : List (ClientId × List (String × Json) × String)) :
    ∀ st : ServerState,
      (∀ p ∈ inputs, hasKey p.2.1 "text" = true ∧ hasKey p.2.1 "sender" = true) →
      (run st (validEvents ok inputs)).1.chat_history
          = (expectedMsgs inputs).foldl trimAppend st.chat_history
        ∧ (run st (validEvents ok inputs)).1.connected_clients = st.connected_clients := by
  induction inputs with
  | nil =>
    intro st _
    exact ⟨rfl, rfl⟩
  | cons p ps ih =>
    intro st hvalid
    obtain ⟨h1, h2⟩ := hvalid p (List.mem_cons_self p ps)
    have hstep : step st (Event.recv p.1 (some (.obj p.2.1)) p.2.2 ok)
        = ({ st with chat_history := trimAppend st.chat_history (mkMsg p.2.1 p.2.2) },
           st.connected_clients.map
             (fun cl => (cl, Payload.message (mkMsg p.2.1 p.2.2), ok cl))) := by
      simpa [step] using processMessage_accept st p.2.2 ok h1 h2
    have hps : ∀ q ∈ ps, hasKey q.2.1 "text" = true ∧ hasKey q.2.1 "sender" = true :=
      fun q hq => hvalid q (List.mem_cons_of_mem p hq)
    simp only [validEvents, List.map_cons, run, hstep, expectedMsgs, List.foldl_cons]
    simpa only [validEvents, expectedMsgs] using
      ih { st with chat_history := trimAppend st.chat_history (mkMsg p.2.1 p.2.2) } hps

/-- C1: starting from an empty history, the buffer holds at most 100
entries after every message, and after N valid messages it holds exactly
the min(N, 100) most recent ones in processing order (oldest evicted
first). -/
theorem history_bound_and_recency (cs : List ClientId) (ok : ClientId → Bool)
    (inputs : List (ClientId × List (String × Json) × String))
    (hvalid : ∀ p ∈ inputs, hasKey p.2.1 "text" = true ∧ hasKey p.2.1 "sender" = true) :
    (∀ k, ((run ⟨cs, []⟩ ((validEvents ok inputs).take k)).1.chat_history.length ≤ 100))
    ∧ (run ⟨cs, []⟩ (validEvents ok inputs)).1.chat_history
        = (expectedMsgs inputs).drop (inputs.length - 100)
    ∧ (run ⟨cs, []⟩ (validEvents ok inputs)).1.chat_history.length
        = min inputs.length 100 := by
  have key : ∀ ins : List (ClientId × List (String × Json) × String),
      (∀ p ∈ ins, hasKey p.2.1 "text" = true ∧ hasKey p.2.1 "sender" = true) →
      (run ⟨cs, []⟩ (validEvents ok ins)).1.chat_history
          = (expectedMsgs ins).drop (ins.length - 100)
        ∧ (run ⟨cs, []⟩ (validEvents ok ins)).1.chat_history.length = min ins.length 100 := by
    intro ins hins
    obtain ⟨hh, _⟩ := run_validEvents ok ins ⟨cs, []⟩ hins
    have hlen : (expectedMsgs ins).length = ins.length := by
      simp [expectedMsgs]
    constructor
    · rw [hh, foldl_trimAppend_eq _ _ (by simp)]
      simp [hlen]
    · rw [hh, foldl_trimAppend_length _ _ (by simp)]
      simp [hlen]
  refine ⟨?_, (key inputs hvalid).1, (key inputs hvalid).2⟩
  intro k
  have htake : (validEvents ok inputs).take k = validEvents ok (inputs.take k) := by
    simp [validEvents, List.map_take]
  rw [htake, (key _ (fun p hp => hvalid p (List.take_subset _ _ hp))).2]
  exact min_le_right _ _

/-- Concrete 101-message scenario input: client 0 sends message #i+1 with
text `i`. -/
def inputs101 : List (ClientId × List (String × Json) × String) :=
  (List.range 101).map (fun i => (0, [("text", Json.num i), ("sender", Json.str "A")], "t"))

/-- Witness for the history bound: 101 sequential messages from one
registered client leave exactly the last 100 (message #1 evicted). -/
theorem history_bound_and_recency_witness :
    (run ⟨[0], []⟩ (validEvents (fun _ => true) inputs101)).1.chat_history
      = (expectedMsgs inputs101).drop (inputs101.length - 100) :=
  (history_bound_and_recency [0] (fun _ => true) inputs101 (by decide)).2.1

/-! ## Fan-out -/

/-- C2: every handle registered at broadcast time — the sender not
special-cased — is issued exactly one live-message send, carrying the
incoming message's fields plus the server timestamp. -/
theorem fanout_exactly_once (st : ServerState) (kvs : List (String × Json))
    (now : String) (ok : ClientId → Bool) (c : ClientId)
    (hnd : st.connected_clients.Nodup) (hc : c ∈ st.connected_clients)
    (htext : hasKey kvs "text" = true) (hsender : hasKey kvs "sender" = true) :
    ((processMessage st (some (.obj kvs)) now ok).2.filter (fun s => s.1 = c))
      = [(c, Payload.message (mkMsg kvs now), ok c)] := by
  rw [processMessage_accept st now ok htext hsender, List.filter_map]
  have hcomp : ((fun s : Send => decide (s.1 = c)) ∘
        (fun cl => (cl, Payload.message (mkMsg kvs now), ok cl)))
      = (fun cl => decide (cl = c)) := rfl
  have hfil : st.connected_clients.filter (fun cl => cl = c) = [c] := by
    rw [List.filter_eq, List.count_eq_one_of_mem hnd hc]
    rfl
  rw [hcomp, hfil]
  rfl

/-- Witness: a two-client registry, the sender itself receives the
broadcast exactly once. -/
theorem fanout_exactly_once_witness :
    ((processMessage ⟨[5, 7], []⟩
        (some (.obj [("text", Json.str "hi"), ("sender", Json.str "A")])) "T"
        (fun _ => true)).2.filter (fun s => s.1 = 5))
      = [(5, Payload.message (mkMsg [("text", Json.str "hi"), ("sender", Json.str "A")] "T"),
          true)] :=
  fanout_exactly_once ⟨[5, 7], []⟩ _ "T" _ 5 (by decide) (by decide) (by decide) (by decide)

/-- C7: one recipient's delivery failure does not change the resulting
server state, does not remove any other recipient's delivery, and nothing
but the live message is sent (no error payload back to anyone). -/
theorem delivery_failure_isolated (st : ServerState) (kvs : List (String × Json))
    (now : String) (ok okAll : ClientId → Bool) (c : ClientId)
    (htext : hasKey kvs "text" = true) (hsender : hasKey kvs "sender" = true)
    (hc : c ∈ st.connected_clients) (hok : ok c = true) :
    (c, Payload.message (mkMsg kvs now), true) ∈ (processMessage st (some (.obj kvs)) now ok).2
    ∧ (processMessage st (some (.obj kvs)) now ok).1
        = (processMessage st (some (.obj kvs)) now okAll).1
    ∧ ∀ s ∈ (processMessage st (some (.obj kvs)) now ok).2,
        s.2.1 = Payload.message (mkMsg kvs now) := by
  rw [processMessage_accept st now ok htext hsender,
    processMessage_accept st now okAll htext hsender]
  refine ⟨List.mem_map.mpr ⟨c, hc, by simp [hok]⟩, rfl, ?_⟩
  intro s hs
  rcases List.mem_map.mp hs with ⟨cl, _, rfl⟩
  rfl

/-- Witness: client 2's send fails, client 1 still gets the message and
the state matches the all-deliveries-succeed state. -/
theorem delivery_failure_isolated_witness :
    (1, Payload.message (mkMsg [("text", Json.str "hi"), ("sender", Json.str "A")] "T"), true)
      ∈ (processMessage ⟨[1, 2, 3], []⟩
          (some (.obj [("text", Json.str "hi"), ("sender", Json.str "A")])) "T"
          (fun cl => cl != 2)).2
    ∧ (processMessage ⟨[1, 2, 3], []⟩
          (some (.obj [("text", Json.str "hi"), ("sender", Json.str "A")])) "T"
          (fun cl => cl != 2)).1
        = (processMessage ⟨[1, 2, 3], []⟩
            (some (.obj [("text", Json.str "hi"), ("sender", Json.str "A")])) "T"
            (fun _ => true)).1 :=
  ⟨(delivery_failure_isolated ⟨[1, 2, 3], []⟩ _ "T" _ (fun _ => true) 1
      (by decide) (by decide) (by decide) (by decide)).1,
   (delivery_failure_isolated ⟨[1, 2, 3], []⟩ _ "T" _ (fun _ => true) 1
      (by decide) (by decide) (by decide) (by decide)).2.1⟩

/-! ## Message construction -/

lemma hasKey_append (kvs l2 : List (String × Json)) (key : String) :
    hasKey (kvs ++ l2) key = (hasKey kvs key || hasKey l2 key) := by
  simp [hasKey]

lemma valOf_append (kvs l2 : List (String × Json)) (key : String)
    (h : hasKey kvs key = true) :
    valOf (kvs ++ l2) key = valOf kvs key := by
  have : (kvs.find? (fun kv => kv.1 = key)).isSome := by
    rw [List.find?_isSome]
    rcases List.any_eq_true.mp h with ⟨kv, hm, hk⟩
    exact ⟨kv, hm, hk⟩
  rcases Option.isSome_iff_exists.mp this with ⟨kv, hfind⟩
  simp [valOf, hfind]

/-- C8: the stored and broadcast record consists of exactly the payload's
`text` and `sender` plus the server clock at the processing instant, and
appending any extra field (e.g. a client-supplied timestamp) to the
payload changes nothing. -/
theorem server_assigned_timestamp (st : ServerState) (kvs : List (String × Json))
    (now : String) (ok : ClientId → Bool) (k : String) (v : Json)
    (htext : hasKey kvs "text" = true) (hsender : hasKey kvs "sender" = true)
    (_hk1 : ¬ k = "text") (_hk2 : ¬ k = "sender") :
    processMessage st (some (.obj (kvs ++ [(k, v)]))) now ok
        = processMessage st (some (.obj kvs)) now ok
    ∧ (processMessage st (some (.obj kvs)) now ok).1.chat_history
        = trimAppend st.chat_history ⟨valOf kvs "text", valOf kvs "sender", now⟩
    ∧ (processMessage st (some (.obj kvs)) now ok).2
        = st.connected_clients.map
            (fun cl =>
              (cl, Payload.message ⟨valOf kvs "text", valOf kvs "sender", now⟩, ok cl)) := by
  have ht2 : hasKey (kvs ++ [(k, v)]) "text" = true := by
    rw [hasKey_append, htext]
    rfl
  have hs2 : hasKey (kvs ++ [(k, v)]) "sender" = true := by
    rw [hasKey_append, hsender]
    rfl
  have hmk : mkMsg (kvs ++ [(k, v)]) now = mkMsg kvs now := by
    unfold mkMsg
    rw [valOf_append _ _ _ htext, valOf_append _ _ _ hsender]
  rw [processMessage_accept st now ok htext hsender,
    processMessage_accept st now ok ht2 hs2, hmk]
  exact ⟨rfl, rfl, rfl⟩

/-- Witness: a client-supplied `timestamp` field is ignored; the record
carries the server clock `2025-01-01`. -/
theorem server_assigned_timestamp_witness :
    processMessage ⟨[1], []⟩
        (some (.obj [("text", Json.str "hi"), ("sender", Json.str "A"),
          ("timestamp", Json.str "1999-12-31")])) "2025-01-01" (fun _ => true)
      = processMessage ⟨[1], []⟩
          (some (.obj [("text", Json.str "hi"), ("sender", Json.str "A")])) "2025-01-01"
          (fun _ => true)
    ∧ (processMessage ⟨[1], []⟩
          (some (.obj [("text", Json.str "hi"), ("sender", Json.str "A")])) "2025-01-01"
          (fun _ => true)).1.chat_history
        = trimAppend []
            ⟨valOf [("text", Json.str "hi"), ("sender", Json.str "A")] "text",
             valOf [("text", Json.str "hi"), ("sender", Json.str "A")] "sender", "2025-01-01"⟩ :=
  ⟨(server_assigned_timestamp ⟨[1], []⟩ [("text", Json.str "hi"), ("sender", Json.str "A")]
      "2025-01-01" (fun _ => true) "timestamp" (Json.str "1999-12-31")
      (by decide) (by decide) (by decide) (by decide)).1,
   (server_assigned_timestamp ⟨[1], []⟩ [("text", Json.str "hi"), ("sender", Json.str "A")]
      "2025-01-01" (fun _ => true) "timestamp" (Json.str "1999-12-31")
      (by decide) (by decide) (by decide) (by decide)).2.1⟩

/-! ## Rejected payloads -/

lemma acceptedPayload_true {parsed : Option Json} (h : acceptedPayload parsed = true) :
    ∃ kvs, parsed = some (.obj kvs)
      ∧ hasKey kvs "text" = true ∧ hasKey kvs "sender" = true := by
  match parsed with
  | none => simp [acceptedPayload] at h
  | some (.null) => simp [acceptedPayload] at h
  | some (.bool b) => simp [acceptedPayload] at h
  | some (.num n) => simp [acceptedPayload] at h
  | some (.str s) => simp [acceptedPayload] at h
  | some (.arr xs) => simp [acceptedPayload] at h
  | some (.obj kvs) =>
    simp only [acceptedPayload, Bool.and_eq_true] at h
    exact ⟨kvs, rfl, h.1, h.2⟩

/-- A rejected inbound message is a complete no-op of the run: same state,
no sends, and the rest of the events play out identically. -/
lemma recv_noop (st : ServerState) (c : ClientId) (parsed : Option Json)
    (now : String) (ok : ClientId → Bool) (evs : List Event)
    (hacc : acceptedPayload parsed = false) :
    step st (Event.recv c parsed now ok) = (st, [])
    ∧ run st (Event.recv c parsed now ok :: evs) = run st evs := by
  have h1 : step st (Event.recv c parsed now ok) = (st, []) := by
    simpa [step] using processMessage_reject st parsed now ok hacc
  refine ⟨h1, ?_⟩
  simp [run, h1]

/-- C5 counterexample: `{"text": 42, "sender": "A"}` is not of the shape
`{"text": string, "sender": string}`, yet it is appended to history and
broadcast — the code checks key presence only, never the values' types. -/
theorem nonstring_field_accepted_cex :
    processMessage ⟨[7], []⟩ (some (.obj [("text", Json.num 42), ("sender", Json.str "A")]))
        "T" (fun _ => true)
      = (⟨[7], [⟨Json.num 42, Json.str "A", "T"⟩]⟩,
         [(7, Payload.message ⟨Json.num 42, Json.str "A", "T"⟩, true)]) := rfl

/-- C5 (amended): a payload is discarded iff it is not a parsed JSON
object with both `text` and `sender` keys present; when both keys are
present the message is accepted whatever the values' types. -/
theorem presence_only_shape_check (st : ServerState) (parsed : Option Json)
    (now : String) (ok : ClientId → Bool) :
    (acceptedPayload parsed = false → processMessage st parsed now ok = (st, []))
    ∧ ∀ kvs, parsed = some (.obj kvs) → hasKey kvs "text" = true →
        hasKey kvs "sender" = true →
        (processMessage st parsed now ok).1.chat_history
          = trimAppend st.chat_history (mkMsg kvs now) := by
  refine ⟨fun h => processMessage_reject st parsed now ok h, ?_⟩
  rintro kvs rfl h1 h2
  rw [processMessage_accept st now ok h1 h2]

/-- Witness: a payload missing `sender` is dropped; one with a numeric
`text` is appended. -/
theorem presence_only_shape_check_witness :
    processMessage ⟨[7], []⟩ (some (.obj [("sender", Json.str "A")])) "T" (fun _ => true)
      = (⟨[7], []⟩, [])
    ∧ (processMessage ⟨[7], []⟩
          (some (.obj [("text", Json.num 42), ("sender", Json.str "A")])) "T"
          (fun _ => true)).1.chat_history
        = trimAppend [] (mkMsg [("text", Json.num 42), ("sender", Json.str "A")] "T") :=
  ⟨(presence_only_shape_check ⟨[7], []⟩ (some (.obj [("sender", Json.str "A")])) "T"
      (fun _ => true)).1 rfl,
   (presence_only_shape_check ⟨[7], []⟩
      (some (.obj [("text", Json.num 42), ("sender", Json.str "A")])) "T"
      (fun _ => true)).2 _ rfl (by decide) (by decide)⟩

/-- C6: a message that fails to parse or lacks `text`/`sender` produces
zero broadcasts and zero history mutations, and the connection keeps
processing subsequent messages exactly as if it had never arrived. -/
theorem invalid_message_isolated (st : ServerState) (c : ClientId) (parsed : Option Json)
    (now : String) (ok : ClientId → Bool) (evs : List Event)
    (h : parsed = none
      ∨ ∃ kvs, parsed = some (.obj kvs)
          ∧ (hasKey kvs "text" = false ∨ hasKey kvs "sender" = false)) :
    step st (Event.recv c parsed now ok) = (st, [])
    ∧ run st (Event.recv c parsed now ok :: evs) = run st evs := by
  have hacc : acceptedPayload parsed = false := by
    rcases h with rfl | ⟨kvs, rfl, h | h⟩
    · rfl
    · simp [acceptedPayload, h]
    · simp [acceptedPayload, h]
  exact recv_noop st c parsed now ok evs hacc

/-- Witness: a payload missing `sender` is a no-op; the connection's later
disconnect is handled identically. -/
theorem invalid_message_isolated_witness :
    step ⟨[4], []⟩ (Event.recv 4 (some (.obj [("text", Json.str "x")])) "t1" (fun _ => true))
      = (⟨[4], []⟩, [])
    ∧ run ⟨[4], []⟩ (Event.recv 4 (some (.obj [("text", Json.str "x")])) "t1" (fun _ => true)
          :: [Event.disconnect 4])
        = run ⟨[4], []⟩ [Event.disconnect 4] :=
  invalid_message_isolated ⟨[4], []⟩ 4 (some (.obj [("text", Json.str "x")])) "t1"
    (fun _ => true) [Event.disconnect 4] (Or.inr ⟨_, rfl, Or.inr rfl⟩)

/-- C10: a payload parsing to a non-object JSON value mutates neither
history nor registry, broadcasts nothing, and leaves the connection
processing later events — including a JSON string containing `"text"` and
`"sender"` as substrings, where the `in`-check passes and the subscription
raises a `TypeError` caught before any mutation. -/
theorem non_object_payload_safe (st : ServerState) (c : ClientId) (j : Json)
    (now : String) (ok : ClientId → Bool) (evs : List Event)
    (h : ∀ kvs, ¬ j = Json.obj kvs) :
    step st (Event.recv c (some j) now ok) = (st, [])
    ∧ run st (Event.recv c (some j) now ok :: evs) = run st evs := by
  have hacc : acceptedPayload (some j) = false := by
    match j with
    | .null => rfl
    | .bool b => rfl
    | .num n => rfl
    | .str s => rfl
    | .arr xs => rfl
    | .obj kvs => exact absurd rfl (h kvs)
  exact recv_noop st c (some j) now ok evs hacc

/-- Witness: the string payload `"text sender"` passes both substring
checks yet is discarded with no state change. -/
theorem non_object_payload_safe_witness :
    hasSubstr "text" "text sender" = true ∧ hasSubstr "sender" "text sender" = true
    ∧ step ⟨[4], []⟩ (Event.recv 4 (some (.str "text sender")) "t" (fun _ => true))
        = (⟨[4], []⟩, [])
    ∧ run ⟨[4], []⟩ [Event.recv 4 (some (.str "text sender")) "t" (fun _ => true)]
        = run ⟨[4], []⟩ [] :=
  ⟨by decide, by decide,
   (non_object_payload_safe ⟨[4], []⟩ 4 (.str "text sender") "t" (fun _ => true) []
      (fun kvs hk => Json.noConfusion hk)).1,
   (non_object_payload_safe ⟨[4], []⟩ 4 (.str "text sender") "t" (fun _ => true) []
      (fun kvs hk => Json.noConfusion hk)).2⟩

/-! ## Unregistration -/

/-- C4 (code bug): the cleanup path (line 128) uses `set.remove`, which
raises `KeyError` on an absent handle, not the specified tolerant no-op. -/
theorem unregister_absent_raises :
    setRemove [2, 3] 1 = .error PyError.keyError
    ∧ setRemove [] 1 = .error PyError.keyError :=
  ⟨rfl, rfl⟩

/-! ## History-first delivery -/

/-- Payloads sent to client `c`, in emission order. -/
def sendsTo (c : ClientId) (outs : List Send) : List Payload :=
  (outs.filter (fun s => s.1 = c)).map (fun s => s.2.1)

lemma sendsTo_append (c : ClientId) (o1 o2 : List Send) :
    sendsTo c (o1 ++ o2) = sendsTo c o1 ++ sendsTo c o2 := by
  simp [sendsTo]

/-- The registry after a message is processed is the registry before. -/
lemma processMessage_registry (st : ServerState) (parsed : Option Json)
    (now : String) (ok : ClientId → Bool) :
    (processMessage st parsed now ok).1.connected_clients = st.connected_clients := by
  cases hacc : acceptedPayload parsed with
  | false => rw [processMessage_reject st parsed now ok hacc]
  | true =>
    obtain ⟨kvs, rfl, h1, h2⟩ := acceptedPayload_true hacc
    rw [processMessage_accept st now ok h1 h2]

/-- Every send a message-processing step emits is a live-message payload. -/
lemma processMessage_sends_message (st : ServerState) (parsed : Option Json)
    (now : String) (ok : ClientId → Bool) :
    ∀ s ∈ (processMessage st parsed now ok).2, ∃ m, s.2.1 = Payload.message m := by
  cases hacc : acceptedPayload parsed with
  | false =>
    rw [processMessage_reject st parsed now ok hacc]
    intro s hs
    simp at hs
  | true =>
    obtain ⟨kvs, rfl, h1, h2⟩ := acceptedPayload_true hacc
    rw [processMessage_accept st now ok h1 h2]
    intro s hs
    rcases List.mem_map.mp hs with ⟨cl, _, rfl⟩
    exact ⟨mkMsg kvs now, rfl⟩

/-- A step that is not `c`'s own join sends `c` only live messages. -/
lemma step_sends_message (st : ServerState) (e : Event) (c : ClientId)
    (h : ¬ e = Event.join c) :
    ∀ p ∈ sendsTo c (step st e).2, ∃ m, p = Payload.message m := by
  match e with
  | .join c' =>
    have hcc : ¬ c' = c := fun hq => h (by rw [hq])
    intro p hp
    simp only [step] at hp
    by_cases hh : st.chat_history.isEmpty
    · simp [hh, sendsTo] at hp
    · simp [hh, sendsTo, hcc] at hp
  | .recv c' parsed now ok =>
    intro p hp
    simp only [step] at hp
    rcases List.mem_map.mp hp with ⟨s, hs, rfl⟩
    exact processMessage_sends_message st parsed now ok s (List.mem_filter.mp hs).1
  | .disconnect c' =>
    intro p hp
    simp only [step] at hp
    rcases hrem : setRemove st.connected_clients c' with s2 | s2 <;>
      rw [hrem] at hp <;> simp [sendsTo] at hp

/-- Along any run without `c`'s own join, `c` receives only live
messages. -/
lemma run_sends_message (c : ClientId) (evs : List Event) :
    ∀ st : ServerState, (∀ e ∈ evs, ¬ e = Event.join c) →
      ∀ p ∈ sendsTo c (run st evs).2, ∃ m, p = Payload.message m := by
  induction evs with
  | nil =>
    intro st _ p hp
    simp [run, sendsTo] at hp
  | cons e es ih =>
    intro st hne p hp
    simp only [run] at hp
    rw [sendsTo_append] at hp
    rcases List.mem_append.mp hp with hp | hp
    · exact step_sends_message st e c (hne e (List.mem_cons_self e es)) p hp
    · exact ih (step st e).1 (fun e' he' => hne e' (List.mem_cons_of_mem e he')) p hp

/-- C3: a client joining with non-empty history gets one history payload
holding the full buffer in order, before every live message it later
receives; with empty history it gets no history payload at all. -/
theorem history_first_delivery (st : ServerState) (c : ClientId) (evs : List Event)
    (hnj : ∀ e ∈ evs, ¬ e = Event.join c) :
    (¬ st.chat_history = [] →
      sendsTo c (run st (Event.join c :: evs)).2
        = Payload.history st.chat_history
            :: sendsTo c
              (run { st with connected_clients := setAdd st.connected_clients c } evs).2)
    ∧ (st.chat_history = [] →
      sendsTo c (run st (Event.join c :: evs)).2
        = sendsTo c
            (run { st with connected_clients := setAdd st.connected_clients c } evs).2)
    ∧ ∀ p ∈ sendsTo c
          (run { st with connected_clients := setAdd st.connected_clients c } evs).2,
        ∃ m, p = Payload.message m := by
  refine ⟨?_, ?_, run_sends_message c evs _ hnj⟩
  · intro hne
    have hstep : step st (Event.join c)
        = ({ st with connected_clients := setAdd st.connected_clients c },
           [(c, Payload.history st.chat_history, true)]) := by
      simp only [step]
      rw [if_neg]
      simp [List.isEmpty_iff, hne]
    simp only [run, hstep, sendsTo_append]
    simp [sendsTo]
  · intro hemp
    have hstep : step st (Event.join c)
        = ({ st with connected_clients := setAdd st.connected_clients c }, []) := by
      simp only [step]
      rw [if_pos]
      simp [List.isEmpty_iff, hemp]
    simp only [run, hstep, sendsTo_append]
    simp [sendsTo]

/-- A sample stored message and follow-up events for the witnesses. -/
def m0 : ChatMessage := ⟨Json.str "hi", Json.str "A", "t0"⟩

def evs0 : List Event :=
  [Event.recv 1 (some (.obj [("text", Json.str "x"), ("sender", Json.str "B")])) "t1"
    (fun _ => true)]

lemma evs0_no_join (c : ClientId) : ∀ e ∈ evs0, ¬ e = Event.join c := by
  intro e he
  simp only [evs0, List.mem_singleton] at he
  subst he
  intro hq
  exact Event.noConfusion hq

/-- Witness: client 5 joining on a one-message buffer gets that history
payload first; client 6 joining on an empty buffer gets none. -/
theorem history_first_delivery_witness :
    sendsTo 5 (run ⟨[], [m0]⟩ (Event.join 5 :: evs0)).2
      = Payload.history [m0] :: sendsTo 5 (run ⟨setAdd [] 5, [m0]⟩ evs0).2
    ∧ sendsTo 6 (run ⟨[], []⟩ (Event.join 6 :: evs0)).2
      = sendsTo 6 (run ⟨setAdd [] 6, []⟩ evs0).2 :=
  ⟨(history_first_delivery ⟨[], [m0]⟩ 5 evs0 (evs0_no_join 5)).1 (by simp),
   (history_first_delivery ⟨[], []⟩ 6 evs0 (evs0_no_join 6)).2.1 rfl⟩

/-! ## Registry membership span -/

/-- The membership status of `c` after a sequence of events, given its
status `b` before them: joins set it, disconnects clear it, messages leave
it alone. -/
def statusFrom (b : Bool) (c : ClientId) : List Event → Bool
  | [] => b
  | Event.join c' :: es => statusFrom (if c' = c then true else b) c es
  | Event.recv _ _ _ _ :: es => statusFrom b c es
  | Event.disconnect c' :: es => statusFrom (if c' = c then false else b) c es

lemma decide_mem_setAdd (s : List ClientId) (c' c : ClientId) :
    decide (c ∈ setAdd s c') = if c' = c then true else decide (c ∈ s) := by
  by_cases h : c' = c
  · subst h
    by_cases hs : c' ∈ s
    · simp [setAdd, hs]
    · simp [setAdd, hs]
  · have hcs : ¬ c = c' := fun hx => h hx.symm
    by_cases hs : c' ∈ s
    · simp [setAdd, hs, h]
    · simp [setAdd, hs, hcs]
      exact fun hx => absurd hx h

/-- The registry after a disconnect: filtered when the handle was present,
unchanged when `set.remove` raised. -/
lemma disconnect_registry (st : ServerState) (c' : ClientId) :
    (step st (Event.disconnect c')).1.connected_clients
      = if st.connected_clients.contains c' then
          st.connected_clients.filter (fun x => ¬ x = c')
        else st.connected_clients := by
  simp only [step, setRemove]
  by_cases hs : c' ∈ st.connected_clients
  · simp [hs]
  · simp [hs]

/-- One step's effect on membership of `c`, matching `statusFrom`. -/
lemma mem_step_status (st : ServerState) (e : Event) (c : ClientId) :
    decide (c ∈ (step st e).1.connected_clients)
      = match e with
        | Event.join c' => if c' = c then true else decide (c ∈ st.connected_clients)
        | Event.recv _ _ _ _ => decide (c ∈ st.connected_clients)
        | Event.disconnect c' => if c' = c then false else decide (c ∈ st.connected_clients)
    := by
  match e with
  | .join c' =>
    have h1 : (step st (Event.join c')).1
        = { st with connected_clients := setAdd st.connected_clients c' } := by
      simp only [step]
      split <;> rfl
    rw [h1]
    exact decide_mem_setAdd st.connected_clients c' c
  | .recv c' parsed now ok =>
    show decide (c ∈ (processMessage st parsed now ok).1.connected_clients) = _
    rw [processMessage_registry]
  | .disconnect c' =>
    show decide (c ∈ (step st (Event.disconnect c')).1.connected_clients) = _
    rw [disconnect_registry]
    by_cases hs : st.connected_clients.contains c' = true
    · rw [if_pos hs]
      by_cases h : c' = c
      · subst h
        simp [List.mem_filter]
      · have hcs : ¬ c = c' := fun hx => h hx.symm
        simp [List.mem_filter, hcs, h]
    · rw [if_neg hs]
      by_cases h : c' = c
      · subst h
        have hnm : ¬ c' ∈ st.connected_clients := by
          simpa [List.contains] using hs
        simp [hnm]
      · simp [h]

/-- Membership after a run equals the event-derived status. -/
lemma run_status (c : ClientId) (evs : List Event) :
    ∀ st : ServerState,
      decide (c ∈ (run st evs).1.connected_clients)
        = statusFrom (decide (c ∈ st.connected_clients)) c evs := by
  induction evs with
  | nil => intro st; rfl
  | cons e es ih =>
    intro st
    rw [show (run st (e :: es)).1 = (run (step st e).1 es).1 from rfl, ih (step st e).1,
      mem_step_status st e c]
    match e with
    | .join c' => rfl
    | .recv c' parsed now ok => rfl
    | .disconnect c' => rfl

lemma self_mem_setAdd (s : List ClientId) (c : ClientId) : c ∈ setAdd s c := by
  unfold setAdd
  by_cases hs : s.contains c
  · rw [if_pos hs]
    simpa [List.contains] using hs
  · rw [if_neg hs]
    exact List.mem_append_right s (List.mem_singleton_self c)

/-- C9: a handle is a registry member exactly within its join–disconnect
span (cleanup runs on every exit), and every send a step emits targets a
client that is a member when the step completes. -/
theorem registry_membership_span (evs : List Event) (c : ClientId) :
    decide (c ∈ (run initState evs).1.connected_clients) = statusFrom false c evs
    ∧ ∀ (st : ServerState) (e : Event), ∀ s ∈ (step st e).2,
        s.1 ∈ (step st e).1.connected_clients := by
  constructor
  · have h := run_status c evs initState
    simpa [initState] using h
  · intro st e s hs
    match e with
    | .join c' =>
      simp only [step] at hs ⊢
      by_cases hh : st.chat_history.isEmpty
      · simp [hh] at hs
      · simp only [hh, Bool.false_eq_true, if_false, List.mem_singleton] at hs
        subst hs
        simp only [hh, Bool.false_eq_true, if_false]
        exact self_mem_setAdd st.connected_clients c'
    | .recv c' parsed now ok =>
      show s.1 ∈ (processMessage st parsed now ok).1.connected_clients
      rw [processMessage_registry]
      have hs' : s ∈ (processMessage st parsed now ok).2 := hs
      cases hacc : acceptedPayload parsed with
      | false =>
        rw [processMessage_reject st parsed now ok hacc] at hs'
        simp at hs'
      | true =>
        obtain ⟨kvs, rfl, h1, h2⟩ := acceptedPayload_true hacc
        rw [processMessage_accept st now ok h1 h2] at hs'
        rcases List.mem_map.mp hs' with ⟨cl, hcl, rfl⟩
        exact hcl
    | .disconnect c' =>
      simp only [step] at hs
      rcases hrem : setRemove st.connected_clients c' with s2 | s2 <;>
        rw [hrem] at hs <;> simp at hs

/-- Witness: join then disconnect leaves client 1 out of the registry, and
a history send on join targets the freshly registered client. -/
theorem registry_membership_span_witness :
    decide (1 ∈ (run initState [Event.join 1, Event.disconnect 1]).1.connected_clients)
      = statusFrom false 1 [Event.join 1, Event.disconnect 1]
    ∧ (2 : ClientId) ∈ (step ⟨[], [m0]⟩ (Event.join 2)).1.connected_clients :=
  ⟨(registry_membership_span [Event.join 1, Event.disconnect 1] 1).1,
   (registry_membership_span [Event.join 1, Event.disconnect 1] 1).2 ⟨[], [m0]⟩
      (Event.join 2) (2, Payload.history [m0], true) (by simp [step, m0])⟩
